import Mathlib

/-!
Verification of `django-admin-smoke` (`admin_smoke/tests.py`).

Shallow embedding conventions used throughout this file:

* Python dictionaries with string keys are modelled either as partial maps
  `String → Option Val` (when a function is mutated in place, as in
  `reset_inline_data`) or as association lists built exclusively through
  `dset`, which mirrors Python's `d[k] = v` (replace in place, else append,
  preserving insertion order).  `List.lookup` is the dictionary lookup.
* Python `del d[k]` raises `KeyError` when the key is absent; this is
  modelled by an `Option` result (`none` = the raised exception).
* Values occurring in form-data dictionaries are modelled by `Val`:
  strings, integers, `FieldFile` objects (carrying their name) and `None`.
* Exceptions that the harness can raise while reconstructing form data
  (`FieldDoesNotExist` from `Meta.get_field`, `unittest` assertion errors)
  are modelled with `Except PyErr`.
-/

namespace AdminSmoke

/-- Values stored in the Python dictionaries handled by the test harness:
strings, integers, `FieldFile` objects (identified by their file name) and
the Python `None` value. -/
inductive Val where
  | str : String → Val
  | int : Int → Val
  | file : String → Val
  | pynone : Val
deriving DecidableEq, Repr

/-- Python truthiness for `Val` (used for `form.instance.pk`). -/
def Val.truthy : Val → Bool
  | .str s => s != ""
  | .int n => n != 0
  | .file s => s != ""
  | .pynone => false

/-- A Python dict with string keys, modelled as a partial map. -/
def FormData : Type := String → Option Val

/-- Dictionary assignment `d[k] = v` on the partial-map model. -/
def fdSet (d : FormData) (k : String) (v : Val) : FormData :=
  fun q => if q = k then some v else d q

/-- Python `del d[k]` on the partial-map model: `none` models the
`KeyError` raised when `k` is absent. -/
def fdDel (d : FormData) (k : String) : Option FormData :=
  match d k with
  | some _ => some (fun q => if q = k then none else d q)
  | none => none

/-- `AdminBaseTestCase.reset_inline_data`, translated statement by
statement: delete the pk entry of form 0, delete (when `related` is given)
the related-field entry of form 0, then set the `INITIAL_FORMS` counter of
the formset prefix to the integer `0`. -/
def reset_inline_data (data : FormData) (pfx : String) (related : Option String)
    (pk : String) : Option FormData := do
  let d1 ← fdDel data (pfx ++ "-0-" ++ pk)
  let d2 ←
    match related with
    | some r => fdDel d1 (pfx ++ "-0-" ++ r)
    | none => some d1
  some (fdSet d2 (pfx ++ "-INITIAL_FORMS") (Val.int 0))

/-- Appending distinct final components to the same prefix and middle part
yields distinct keys. -/
lemma key_inj (pfx mid a b : String) (h : pfx ++ mid ++ a = pfx ++ mid ++ b) :
    a = b := by
  have h0 := congrArg String.data h
  rw [String.data_append, String.data_append, String.data_append,
    String.data_append, List.append_assoc, List.append_assoc] at h0
  exact String.ext (List.append_cancel_left (List.append_cancel_left h0))

/-- A formset key of the shape `pfx-0-a` is never the `pfx-INITIAL_FORMS`
key of the same prefix. -/
lemma zeroKey_ne_initialKey (pfx a : String) :
    pfx ++ "-0-" ++ a ≠ pfx ++ "-INITIAL_FORMS" := by
  intro h
  have h0 := congrArg String.data h
  rw [String.data_append, String.data_append, String.data_append,
    List.append_assoc] at h0
  have h2 := List.append_cancel_left h0
  have e1 : ("-0-" : String).data = ['-', '0', '-'] := rfl
  have e2 : ("-INITIAL_FORMS" : String).data
      = ['-', 'I', 'N', 'I', 'T', 'I', 'A', 'L', '_',
         'F', 'O', 'R', 'M', 'S'] := rfl
  rw [e1, e2] at h2
  simp at h2

/-- C1: if the form-data dictionary contains the key `pfx-0-pk` and, when
`related = some r`, the (distinct) key `pfx-0-r`, then `reset_inline_data`
succeeds, removes exactly those keys, sets `pfx-INITIAL_FORMS` to the
integer `0`, and leaves every other entry — in particular every entry of a
form index other than `0` — unchanged. -/
theorem C1_reset_inline_data (data : FormData) (pfx pk : String)
    (related : Option String)
    (hpk : (data (pfx ++ "-0-" ++ pk)).isSome = true)
    (hrel : ∀ r, related = some r →
      r ≠ pk ∧ (data (pfx ++ "-0-" ++ r)).isSome = true) :
    ∃ d, reset_inline_data data pfx related pk = some d
      ∧ d (pfx ++ "-0-" ++ pk) = none
      ∧ (∀ r, related = some r → d (pfx ++ "-0-" ++ r) = none)
      ∧ d (pfx ++ "-INITIAL_FORMS") = some (Val.int 0)
      ∧ ∀ q, q ≠ pfx ++ "-0-" ++ pk →
          (∀ r, related = some r → q ≠ pfx ++ "-0-" ++ r) →
          q ≠ pfx ++ "-INITIAL_FORMS" → d q = data q := by
  obtain ⟨v, hv⟩ := Option.isSome_iff_exists.mp hpk
  have hdel1 : fdDel data (pfx ++ "-0-" ++ pk)
      = some (fun q => if q = pfx ++ "-0-" ++ pk then none else data q) := by
    simp [fdDel, hv]
  cases related with
  | none =>
    refine ⟨fdSet (fun q => if q = pfx ++ "-0-" ++ pk then none else data q)
      (pfx ++ "-INITIAL_FORMS") (Val.int 0), ?_, ?_, ?_, ?_, ?_⟩
    · simp [reset_inline_data, hdel1]
    · simp [fdSet, zeroKey_ne_initialKey pfx pk]
    · intro r hr; cases hr
    · simp [fdSet]
    · intro q hq _ hq2
      simp [fdSet, hq, hq2]
  | some r =>
    obtain ⟨hne, hr⟩ := hrel r rfl
    obtain ⟨w, hw0⟩ := Option.isSome_iff_exists.mp hr
    have hne' : pfx ++ "-0-" ++ r ≠ pfx ++ "-0-" ++ pk := fun h =>
      hne (key_inj pfx "-0-" r pk h)
    have hdel2 : fdDel (fun q => if q = pfx ++ "-0-" ++ pk then none else data q)
        (pfx ++ "-0-" ++ r)
        = some (fun q => if q = pfx ++ "-0-" ++ r then none
            else if q = pfx ++ "-0-" ++ pk then none else data q) := by
      simp [fdDel, hne', hw0]
    refine ⟨fdSet (fun q => if q = pfx ++ "-0-" ++ r then none
        else if q = pfx ++ "-0-" ++ pk then none else data q)
      (pfx ++ "-INITIAL_FORMS") (Val.int 0), ?_, ?_, ?_, ?_, ?_⟩
    · simp [reset_inline_data, hdel1, hdel2]
    · simp [fdSet, zeroKey_ne_initialKey pfx pk]
    · intro r' hr'
      cases hr'
      simp [fdSet, zeroKey_ne_initialKey pfx r]
    · simp [fdSet]
    · intro q hq hqr hq2
      have hqr' := hqr r rfl
      simp [fdSet, hq, hqr', hq2]

/-- Concrete form-data dictionary used to witness `C1_reset_inline_data`. -/
def c1Data : FormData := fun q =>
  if q = "task_set-0-id" then some (Val.str "5")
  else if q = "task_set-0-project" then some (Val.str "7")
  else if q = "task_set-1-id" then some (Val.str "6")
  else if q = "task_set-INITIAL_FORMS" then some (Val.str "2")
  else none

/-- Witness for C1 at a concrete dictionary: the pk and related keys of
form 0 exist beforehand, and the transformed dictionary drops them, zeroes
`INITIAL_FORMS` and keeps the form-1 entry. -/
theorem C1_witness :
    (c1Data ("task_set" ++ "-0-" ++ "id")).isSome = true
    ∧ ∃ d, reset_inline_data c1Data "task_set" (some "project") "id" = some d
      ∧ d ("task_set" ++ "-0-" ++ "id") = none
      ∧ d ("task_set" ++ "-0-" ++ "project") = none
      ∧ d ("task_set" ++ "-INITIAL_FORMS") = some (Val.int 0)
      ∧ d "task_set-1-id" = c1Data "task_set-1-id" := by
  have h := C1_reset_inline_data c1Data "task_set" "id" (some "project")
    (by decide)
    (by
      intro r hr
      injection hr with h'
      subst h'
      exact ⟨by decide, by decide⟩)
  obtain ⟨d, h1, h2, h3, h4, h5⟩ := h
  exact ⟨by decide, d, h1, h2, h3 "project" rfl, h4,
    h5 "task_set-1-id" (by decide) (by rintro r ⟨rfl⟩; decide) (by decide)⟩

/-! ### Python dictionaries as association lists

Dictionaries that are built up by the harness (rather than mutated in
place) are modelled as association lists with Python's `d[k] = v`
semantics: replace the existing entry in place, otherwise append, so that
insertion order is preserved exactly as in CPython. -/

/-- Python `d[k] = v` on the association-list dictionary model. -/
def dset {κ ν : Type} [DecidableEq κ] : List (κ × ν) → κ → ν → List (κ × ν)
  | [], k, v => [(k, v)]
  | (k', v') :: t, k, v =>
    if k' = k then (k, v) :: t else (k', v') :: dset t k v

/-- Dictionary lookup on the association-list model. -/
def dlookup {κ ν : Type} [DecidableEq κ] (k : κ) : List (κ × ν) → Option ν
  | [] => none
  | (k', v') :: t => if k = k' then some v' else dlookup k t

/-- Python `d.update(s)`: every entry of `s` is assigned into `d` in
order, entries of `s` overriding entries of `d` with the same key. -/
def dictUpdate {κ ν : Type} [DecidableEq κ] (d s : List (κ × ν)) :
    List (κ × ν) :=
  s.foldl (fun a kv => dset a kv.1 kv.2) d

/-- Python `dict(pairs)`: later pairs override earlier ones. -/
def pyDictOf {κ ν : Type} [DecidableEq κ] (s : List (κ × ν)) : List (κ × ν) :=
  dictUpdate [] s

/-- Left-biased choice on `Option`, mirroring "first dictionary that has
the key wins". -/
def oor {α : Type} : Option α → Option α → Option α
  | some v, _ => some v
  | none, b => b

lemma oor_none_right {α : Type} (a : Option α) : oor a none = a := by
  cases a <;> rfl

lemma oor_assoc {α : Type} (a b c : Option α) :
    oor (oor a b) c = oor a (oor b c) := by
  cases a <;> rfl

lemma dlookup_dset {κ ν : Type} [DecidableEq κ] (d : List (κ × ν))
    (k : κ) (v : ν) (q : κ) :
    dlookup q (dset d k v) = if q = k then some v else dlookup q d := by
  induction d with
  | nil => simp [dset, dlookup]
  | cons hd t ih =>
    obtain ⟨k', v'⟩ := hd
    by_cases h : k' = k
    · subst h
      by_cases hq : q = k' <;> simp [dset, dlookup, hq]
    · by_cases hq : q = k
      · subst hq
        simp [dset, dlookup, h, Ne.symm h, ih]
      · by_cases hq' : q = k' <;> simp [dset, dlookup, h, hq, hq', ih]

lemma dlookup_dictUpdate {κ ν : Type} [DecidableEq κ] (s d : List (κ × ν))
    (q : κ) :
    dlookup q (dictUpdate d s) = oor (dlookup q (pyDictOf s)) (dlookup q d) := by
  induction s generalizing d with
  | nil => simp [dictUpdate, pyDictOf, dlookup, oor]
  | cons hd t ih =>
    obtain ⟨k, v⟩ := hd
    show dlookup q (dictUpdate (dset d k v) t) = _
    rw [ih]
    have h2 : dlookup q (pyDictOf ((k, v) :: t))
        = oor (dlookup q (pyDictOf t)) (dlookup q (dset ([] : List (κ × ν)) k v)) := by
      show dlookup q (dictUpdate (dset [] k v) t) = _
      rw [ih]
    rw [h2, oor_assoc]
    congr 1
    by_cases hq : q = k
    · simp [dlookup_dset, dlookup, dset, hq, oor]
    · simp [dlookup_dset, dlookup, dset, hq, oor]

lemma mem_keys_dset {κ ν : Type} [DecidableEq κ] (d : List (κ × ν))
    (k : κ) (v : ν) (q : κ) :
    q ∈ (dset d k v).map Prod.fst ↔ q = k ∨ q ∈ d.map Prod.fst := by
  induction d with
  | nil => simp [dset]
  | cons hd t ih =>
    obtain ⟨k', v'⟩ := hd
    by_cases h : k' = k
    · subst h
      simp [dset]
    · simp [dset, h, ih]
      tauto

lemma nodup_dset {κ ν : Type} [DecidableEq κ] (d : List (κ × ν))
    (k : κ) (v : ν) (hd : (d.map Prod.fst).Nodup) :
    ((dset d k v).map Prod.fst).Nodup := by
  induction d with
  | nil => simp [dset]
  | cons hdh t ih =>
    obtain ⟨k', v'⟩ := hdh
    rw [List.map_cons, List.nodup_cons] at hd
    by_cases h : k' = k
    · subst h
      rw [show dset ((k', v') :: t) k' v = (k', v) :: t by simp [dset]]
      rw [List.map_cons, List.nodup_cons]
      exact hd
    · rw [show dset ((k', v') :: t) k v = (k', v') :: dset t k v by
        simp [dset, h]]
      rw [List.map_cons, List.nodup_cons]
      refine ⟨?_, ih hd.2⟩
      rw [mem_keys_dset]
      rintro (rfl | hm)
      · exact h rfl
      · exact hd.1 hm

lemma nodup_dictUpdate {κ ν : Type} [DecidableEq κ] (s d : List (κ × ν))
    (hd : (d.map Prod.fst).Nodup) : ((dictUpdate d s).map Prod.fst).Nodup := by
  induction s generalizing d with
  | nil => exact hd
  | cons hds t ih =>
    exact ih (dset d hds.1 hds.2) (nodup_dset d hds.1 hds.2 hd)

lemma nodup_pyDictOf {κ ν : Type} [DecidableEq κ] (s : List (κ × ν)) :
    ((pyDictOf s).map Prod.fst).Nodup :=
  nodup_dictUpdate s [] (by simp)

lemma dictUpdate_cons_notmem {κ ν : Type} [DecidableEq κ]
    (s d : List (κ × ν)) (k : κ) (v : ν) (hk : k ∉ s.map Prod.fst) :
    dictUpdate ((k, v) :: d) s = (k, v) :: dictUpdate d s := by
  induction s generalizing d with
  | nil => rfl
  | cons hds t ih =>
    obtain ⟨k', v'⟩ := hds
    have hk1 : k ≠ k' := fun he => hk (by simp [he])
    have hk2 : k ∉ t.map Prod.fst := fun hm => hk (by simp [hm])
    show dictUpdate (dset ((k, v) :: d) k' v') t = _
    rw [show dset ((k, v) :: d) k' v' = (k, v) :: dset d k' v' by
      simp [dset, hk1]]
    exact ih (dset d k' v') hk2

lemma pyDictOf_eq_self_of_nodup {κ ν : Type} [DecidableEq κ]
    (d : List (κ × ν)) (hd : (d.map Prod.fst).Nodup) : pyDictOf d = d := by
  induction d with
  | nil => rfl
  | cons hdh t ih =>
    obtain ⟨k, v⟩ := hdh
    rw [List.map_cons, List.nodup_cons] at hd
    show dictUpdate (dset [] k v) t = _
    rw [show dset ([] : List (κ × ν)) k v = (k, v) :: [] from rfl]
    rw [dictUpdate_cons_notmem t [] k v hd.1]
    exact congrArg ((k, v) :: ·) (ih hd.2)

lemma pyDictOf_idem {κ ν : Type} [DecidableEq κ] (s : List (κ × ν)) :
    pyDictOf (pyDictOf s) = pyDictOf s :=
  pyDictOf_eq_self_of_nodup (pyDictOf s) (nodup_pyDictOf s)

/-! ### C10: `BaseTestCase.update_object` -/

/-- A database row: primary key plus field values.  Field names and values
are both modelled as `Val` since Python pairs them up untyped. -/
structure DbRow where
  pk : Val
  fields : List (Val × Val)
deriving DecidableEq, Repr

/-- Python `zip(it, it)` over one iterator: consecutive elements are
paired up; a dangling last element is dropped. -/
def pairUp {α : Type} : List α → List (α × α)
  | a :: b :: t => (a, b) :: pairUp t
  | _ => []

/-- The pairing behaviour C10 claims of `zip(it, it)`: entry `i` pairs
argument `2*i` with argument `2*i+1`, and nothing is paired past the end
of the argument list. -/
def pairUpSpec {α : Type} (args : List α) (i : Nat) : Option (α × α) :=
  match args[2 * i]?, args[2 * i + 1]? with
  | some a, some b => some (a, b)
  | _, _ => none

/-- Positional pairing, characterised positionally: entry `i` of
`pairUp args` pairs argument `2*i` with argument `2*i+1`. -/
lemma pairUp_getElem {α : Type} (args : List α) (i : Nat) :
    (pairUp args)[i]? = pairUpSpec args i := by
  match args with
  | [] => cases i <;> simp [pairUp, pairUpSpec]
  | [a] =>
    cases i with
    | zero => simp [pairUp, pairUpSpec]
    | succ j =>
      have h2 : 2 * (j + 1) = 2 * j + 1 + 1 := by omega
      simp [pairUp, pairUpSpec, h2]
  | a :: b :: t =>
    cases i with
    | zero => simp [pairUp, pairUpSpec]
    | succ j =>
      have h2 : 2 * (j + 1) = 2 * j + 1 + 1 := by omega
      simpa [pairUp, pairUpSpec, h2] using pairUp_getElem t j

/-- The field assignment dictionary built by `update_object`:
`kwargs.update(dict(zip(args_iter, args_iter)))`. -/
def mergedArgs (args : List Val) (kwargs : List (Val × Val)) :
    List (Val × Val) :=
  dictUpdate kwargs (pyDictOf (pairUp args))

/-- `BaseTestCase.update_object`: pairs the positional arguments, merges
them over the keyword arguments, and applies the update to the database
rows whose primary key equals `obj.pk`; the in-memory object is returned
unchanged. -/
def update_object (db : List DbRow) (obj : DbRow) (args : List Val)
    (kwargs : List (Val × Val)) : List DbRow × DbRow :=
  let kw := mergedArgs args kwargs
  (db.map fun row =>
    if row.pk = obj.pk then { row with fields := dictUpdate row.fields kw }
    else row, obj)

/-- C10: `update_object` pairs argument `2*i` with argument `2*i+1`,
positional pairs override keyword arguments of the same name, only rows
whose primary key equals `obj.pk` are rewritten in the database, and the
in-memory object is left unchanged. -/
theorem C10_update_object (db : List DbRow) (obj : DbRow) (args : List Val)
    (kwargs : List (Val × Val)) :
    (update_object db obj args kwargs).2 = obj
    ∧ (∀ i : Nat, (pairUp args)[i]? = pairUpSpec args i)
    ∧ (∀ k, dlookup k (mergedArgs args kwargs)
        = oor (dlookup k (pyDictOf (pairUp args))) (dlookup k kwargs))
    ∧ (∀ i : Nat, ((update_object db obj args kwargs).1)[i]? =
        (db[i]?).map fun row =>
          if row.pk = obj.pk then
            { row with fields := dictUpdate row.fields (mergedArgs args kwargs) }
          else row) := by
  refine ⟨rfl, ?_, ?_, ?_⟩
  · intro i
    exact pairUp_getElem args i
  · intro k
    unfold mergedArgs
    rw [dlookup_dictUpdate, pyDictOf_idem]
  · intro i
    simp [update_object, List.getElem?_map]

/-! ### Forms, widgets and model metadata: `AdminBaseTestCase.get_form_data` -/

/-- Exceptions the harness can raise while reconstructing form data:
`FieldDoesNotExist` escaping from `Meta.get_field`, and `unittest`
assertion failures. -/
inductive PyErr where
  | fieldDoesNotExist
  | assertionError (msg : String)
deriving DecidableEq, Repr

/-- A form widget: plain, or a `MultiWidget` carrying the `format_value`
functions of its sub-widgets (`Val.pynone` models `format_value`
returning `None`). -/
inductive Widget where
  | simple
  | multi (widgets : List (Val → Val))

/-- A form field: its `prepare_value` method and its widget. -/
structure FormField where
  prepare_value : Val → Val
  widget : Widget

/-- Metadata of one model field. -/
structure FieldMeta where
  name : String
  attname : String
  primary_key : Bool
deriving DecidableEq, Repr

/-- Model metadata: a concrete model with its local fields, or a proxy
model pointing at `proxy_for_model`. -/
inductive ModelMeta where
  | concrete (local_fields : List FieldMeta)
  | proxy (proxy_for_model : ModelMeta)

/-- The `while model._meta.proxy` loop of `get_form_data`: repeatedly
follow `proxy_for_model` until a non-proxy model is reached. -/
def ModelMeta.resolve : ModelMeta → ModelMeta
  | .concrete fs => .concrete fs
  | .proxy p => p.resolve

/-- Local fields of a model; a proxy model shares the local fields of its
concrete ancestor, as in the framework's ORM. -/
def ModelMeta.localFields : ModelMeta → List FieldMeta
  | .concrete fs => fs
  | .proxy p => p.localFields

/-- `Meta.get_field` on the names occurring here: the first local field
with the given name; `none` models the `FieldDoesNotExist` exception. -/
def ModelMeta.getField (m : ModelMeta) (k : String) : Option FieldMeta :=
  m.localFields.find? (fun f => f.name == k)

/-- A bound model instance: `getattr` over attribute names (total, the
way Python attribute access is on a saved model) and the primary key. -/
structure PyInstance where
  attrs : String → Val
  pk : Val

/-- An admin form; also used for formset member forms and management
forms.  `inst` is Python's `form.instance` (`none` when the form has no
such attribute, as for management forms), `pfx` is `form.prefix`, and
`errors` is the form's error dictionary. -/
structure Form where
  initial : List (String × Val)
  fields : List (String × FormField)
  inst : Option PyInstance
  meta_model : ModelMeta
  pfx : Option String
  errors : List (String × List String)

/-- The instance preamble of `get_form_data`: starting from a copy of
`form.initial`, store `getattr(instance, f.attname)` for every local
field of the resolved non-proxy model that is either declared on the form
or is the primary key of an instance with a truthy pk. -/
def mergeInstanceFields (form : Form) : List (String × Val) :=
  match form.inst with
  | none => form.initial
  | some inst =>
    let model := form.meta_model.resolve
    model.localFields.foldl
      (fun ini f =>
        if (dlookup f.name form.fields).isSome
            || (f.primary_key && inst.pk.truthy) then
          dset ini f.name (inst.attrs f.attname)
        else ini)
      form.initial

/-- The payload key for a form field: `form.prefix-k` when the form has a
prefix, the bare name otherwise. -/
def formKey (form : Form) (k : String) : String :=
  match form.pfx with
  | some p => p ++ "-" ++ k
  | none => k

/-- The entries emitted for a `MultiWidget` value: one per sub-widget,
keyed `key_i`, holding the sub-widget's formatted value, sub-widgets
formatting to `None` being skipped. -/
def multiEntries (ws : List (Val → Val)) (p : Val) (key : String) :
    List (String × Val) :=
  ws.enum.filterMap (fun iw =>
    if iw.2 p = Val.pynone then none
    else some (key ++ "_" ++ toString iw.1, iw.2 p))

/-- One iteration of the `for k, v in initial.items()` loop of
`get_form_data`: the payload entries contributed by one initial item.
The `KeyError` handler keeps primary-key model fields under the bare key
and drops everything else; an unknown field name raises
`FieldDoesNotExist`. -/
def processItem (form : Form) (k : String) (v : Val) :
    Except PyErr (List (String × Val)) :=
  match dlookup k form.fields with
  | none =>
    match form.meta_model.getField k with
    | none => .error .fieldDoesNotExist
    | some mf => .ok (if mf.primary_key then [(k, v)] else [])
  | some field =>
    let v1 := field.prepare_value v
    let key := formKey form k
    match field.widget with
    | .multi ws => .ok (multiEntries ws v1 key)
    | .simple =>
      let v2 :=
        match v1 with
        | .file _ => Val.str ""
        | x => x
      if v2 = Val.pynone then .ok [] else .ok [(key, v2)]

/-- The accumulation loop of `get_form_data`: each processed item's
entries are assigned into the payload dictionary in order. -/
def runItems (form : Form) :
    List (String × Val) → List (String × Val) → Except PyErr (List (String × Val))
  | [], data => .ok data
  | (k, v) :: t, data =>
    match processItem form k v with
    | .error e => .error e
    | .ok items => runItems form t (dictUpdate data items)

/-- `AdminBaseTestCase.get_form_data`. -/
def get_form_data (form : Form) : Except PyErr (List (String × Val)) :=
  runItems form (mergeInstanceFields form) []

/-- A key is never equal to itself extended by an underscore and a
sub-widget index. -/
lemma self_ne_append_underscore (key s : String) :
    key ≠ key ++ "_" ++ s := by
  intro h
  have hl := congrArg String.length h
  rw [String.length_append, String.length_append] at hl
  have h1 : ("_" : String).length = 1 := rfl
  omega

/-- Membership in the payload entries produced for a `MultiWidget`
initial value. -/
lemma mem_multi_entries (ws : List (Val → Val)) (p : Val) (key : String)
    (e : String × Val) :
    e ∈ multiEntries ws p key ↔
      ∃ (i : Nat) (w : Val → Val), ws[i]? = some w ∧ w p ≠ Val.pynone
        ∧ e = (key ++ "_" ++ toString i, w p) := by
  rw [multiEntries, List.mem_filterMap]
  constructor
  · rintro ⟨⟨i, w⟩, hmem, hf⟩
    rw [List.mem_enum_iff_getElem?] at hmem
    by_cases hz : w p = Val.pynone
    · simp [hz] at hf
    · refine ⟨i, w, hmem, hz, ?_⟩
      simp only [hz, if_neg] at hf
      simp at hf
      exact hf.symm
  · rintro ⟨i, w, hget, hz, rfl⟩
    refine ⟨(i, w), ?_, ?_⟩
    · rw [List.mem_enum_iff_getElem?]
      exact hget
    · simp [hz]

/-- C5: processing one initial item of `get_form_data`.  For a field with
a `MultiWidget`, one entry per sub-widget appears under `key_i`, holding
the sub-widget's formatted (prepared) value, sub-widgets formatting to
`None` are skipped, and no entry is emitted under the undecomposed `key`;
for a plain widget, a `FieldFile` value becomes the empty string and a
`None` value produces no entry at all. -/
theorem C5_get_form_data_widgets (form : Form) (k : String) (v : Val)
    (field : FormField) (hf : dlookup k form.fields = some field) :
    (∀ ws, field.widget = .multi ws →
      ∃ l, processItem form k v = .ok l
        ∧ (∀ e, e ∈ l ↔ ∃ (i : Nat) (w : Val → Val), ws[i]? = some w
            ∧ w (field.prepare_value v) ≠ Val.pynone
            ∧ e = (formKey form k ++ "_" ++ toString i,
              w (field.prepare_value v)))
        ∧ (∀ x, (formKey form k, x) ∉ l))
    ∧ (field.widget = .simple →
        (∀ s, field.prepare_value v = .file s →
          processItem form k v = .ok [(formKey form k, Val.str "")])
        ∧ (field.prepare_value v = .pynone →
          processItem form k v = .ok [])) := by
  constructor
  · intro ws hw
    refine ⟨multiEntries ws (field.prepare_value v) (formKey form k),
      ?_, ?_, ?_⟩
    · simp only [processItem, hf, hw]
    · intro e
      exact mem_multi_entries ws (field.prepare_value v) _ e
    · intro x hx
      rw [mem_multi_entries] at hx
      obtain ⟨i, w, _, _, he⟩ := hx
      exact self_ne_append_underscore _ (toString i) (congrArg Prod.fst he)
  · intro hw
    constructor
    · intro s hs
      simp only [processItem, hf, hw, hs]
      rfl
    · intro hs
      simp only [processItem, hf, hw, hs]
      rfl

/-- Sub-widgets of the splitter widget used to witness C5: the first two
format to strings, the third formats to `None` and must be skipped. -/
def c5Widgets : List (Val → Val) :=
  [fun _ => Val.str "2020-01-01", fun _ => Val.str "12:00",
   fun _ => Val.pynone]

def c5Field : FormField :=
  { prepare_value := fun v => v, widget := .multi c5Widgets }

def c5SimpleField : FormField :=
  { prepare_value := fun v => v, widget := .simple }

/-- A concrete inline form (prefix `task_set-0`) used to witness C5. -/
def c5Form : Form :=
  { initial := [("when", Val.str "x"), ("attachment", Val.file "txt.doc")]
    fields := [("when", c5Field), ("attachment", c5SimpleField)]
    inst := none
    meta_model := .concrete []
    pfx := some "task_set-0"
    errors := [] }

/-- Witness for C5: on a concrete form, the multi-widget item emits the
two formatted sub-widget entries and nothing under the bare key, and the
plain-widget `FieldFile` item emits the empty string. -/
theorem C5_witness :
    dlookup "when" c5Form.fields = some c5Field
    ∧ (∃ l, processItem c5Form "when" (Val.str "x") = .ok l
        ∧ ("task_set-0-when_0", Val.str "2020-01-01") ∈ l
        ∧ ("task_set-0-when_1", Val.str "12:00") ∈ l
        ∧ ("task_set-0-when", Val.str "2020-01-01") ∉ l)
    ∧ processItem c5Form "attachment" (Val.file "txt.doc")
        = .ok [("task_set-0-attachment", Val.str "")] := by
  have h := C5_get_form_data_widgets c5Form "when" (Val.str "x") c5Field rfl
  obtain ⟨l, hok, hmem, hnot⟩ := h.1 c5Widgets rfl
  have h2 := C5_get_form_data_widgets c5Form "attachment"
    (Val.file "txt.doc") c5SimpleField rfl
  refine ⟨rfl, ⟨l, hok, ?_, ?_, hnot _⟩, ?_⟩
  · exact (hmem _).mpr ⟨0, fun _ => Val.str "2020-01-01", rfl,
      by decide, by decide⟩
  · exact (hmem _).mpr ⟨1, fun _ => Val.str "12:00", rfl,
      by decide, by decide⟩
  · exact h2.2 rfl |>.1 "txt.doc" rfl

/-! ### C6: proxy-model resolution and primary-key inclusion -/

lemma ModelMeta.localFields_resolve (m : ModelMeta) :
    m.resolve.localFields = m.localFields := by
  induction m with
  | concrete fs => rfl
  | proxy p ih => exact ih

lemma ModelMeta.resolve_idem (m : ModelMeta) :
    m.resolve.resolve = m.resolve := by
  induction m with
  | concrete fs => rfl
  | proxy p ih => exact ih

lemma ModelMeta.getField_resolve (m : ModelMeta) (k : String) :
    m.resolve.getField k = m.getField k := by
  unfold ModelMeta.getField
  rw [ModelMeta.localFields_resolve]

/-- Replacing a form's model by its resolved non-proxy ancestor does not
change how a single initial item is processed. -/
lemma processItem_resolve (form : Form) (k : String) (v : Val) :
    processItem { form with meta_model := form.meta_model.resolve } k v
      = processItem form k v := by
  unfold processItem
  rw [show ({ form with meta_model := form.meta_model.resolve } : Form).meta_model
      = form.meta_model.resolve from rfl]
  rw [ModelMeta.getField_resolve]
  rfl

lemma runItems_resolve (form : Form) (l data : List (String × Val)) :
    runItems { form with meta_model := form.meta_model.resolve } l data
      = runItems form l data := by
  induction l generalizing data with
  | nil => rfl
  | cons kv t ih =>
    obtain ⟨k, v⟩ := kv
    simp only [runItems]
    rw [processItem_resolve]
    cases processItem form k v with
    | error e => rfl
    | ok items => exact ih (dictUpdate data items)

lemma mergeInstanceFields_resolve (form : Form) :
    mergeInstanceFields { form with meta_model := form.meta_model.resolve }
      = mergeInstanceFields form := by
  unfold mergeInstanceFields
  cases form.inst with
  | none => rfl
  | some inst =>
    show (ModelMeta.resolve (form.meta_model.resolve)).localFields.foldl _ _ = _
    rw [ModelMeta.resolve_idem]

lemma get_form_data_resolve (form : Form) :
    get_form_data { form with meta_model := form.meta_model.resolve }
      = get_form_data form := by
  unfold get_form_data
  rw [mergeInstanceFields_resolve, runItems_resolve]

lemma dlookup_eq_none_iff {κ ν : Type} [DecidableEq κ]
    (d : List (κ × ν)) (q : κ) :
    dlookup q d = none ↔ q ∉ d.map Prod.fst := by
  induction d with
  | nil => simp [dlookup]
  | cons hd t ih =>
    obtain ⟨k, v⟩ := hd
    by_cases hq : q = k <;> simp [dlookup, hq, ih]

lemma mem_keys_dictUpdate {κ ν : Type} [DecidableEq κ]
    (s d : List (κ × ν)) (q : κ) :
    q ∈ (dictUpdate d s).map Prod.fst
      ↔ q ∈ d.map Prod.fst ∨ q ∈ s.map Prod.fst := by
  induction s generalizing d with
  | nil => simp [dictUpdate]
  | cons hd t ih =>
    obtain ⟨k, v⟩ := hd
    show q ∈ (dictUpdate (dset d k v) t).map Prod.fst ↔ _
    rw [ih, mem_keys_dset]
    simp
    tauto

lemma dlookup_pyDictOf_eq_none {κ ν : Type} [DecidableEq κ]
    (s : List (κ × ν)) (q : κ) (hq : q ∉ s.map Prod.fst) :
    dlookup q (pyDictOf s) = none := by
  rw [dlookup_eq_none_iff]
  intro hmem
  rw [pyDictOf, mem_keys_dictUpdate] at hmem
  rcases hmem with h | h
  · simp at h
  · exact hq h

/-- Lookup after the instance-field fold, at a key named by no field of
the fold. -/
lemma mergeFold_lookup_notmem (c : FieldMeta → Bool) (g : FieldMeta → Val)
    (q : String) :
    ∀ (fields : List FieldMeta) (ini : List (String × Val)),
      (∀ f ∈ fields, f.name ≠ q) →
      dlookup q (fields.foldl
        (fun ini f => if c f then dset ini f.name (g f) else ini) ini)
        = dlookup q ini := by
  intro fields
  induction fields with
  | nil => intro ini _; rfl
  | cons f t ih =>
    intro ini hno
    show dlookup q (t.foldl _ (if c f then dset ini f.name (g f) else ini)) = _
    rw [ih _ (fun g hg => hno g (List.mem_cons_of_mem f hg))]
    by_cases hc : c f
    · rw [if_pos hc, dlookup_dset,
        if_neg (fun he => hno f (List.mem_cons_self f t) he.symm)]
    · rw [if_neg hc]

/-- Lookup after the instance-field fold, at the name of a member field
satisfying the condition, under name uniqueness. -/
lemma mergeFold_lookup_mem (c : FieldMeta → Bool) (g : FieldMeta → Val)
    (pkf : FieldMeta) :
    ∀ (fields : List FieldMeta) (ini : List (String × Val)),
      (fields.map FieldMeta.name).Nodup → pkf ∈ fields → c pkf = true →
      dlookup pkf.name (fields.foldl
        (fun ini f => if c f then dset ini f.name (g f) else ini) ini)
        = some (g pkf) := by
  intro fields
  induction fields with
  | nil => intro ini _ hm; cases hm
  | cons f t ih =>
    intro ini hnd hm hc
    rw [List.map_cons, List.nodup_cons] at hnd
    show dlookup pkf.name (t.foldl _ (if c f then dset ini f.name (g f) else ini))
      = _
    rcases List.mem_cons.mp hm with rfl | hmt
    · rw [mergeFold_lookup_notmem c g pkf.name t _
        (fun fld hfld he => hnd.1 (he ▸ List.mem_map_of_mem FieldMeta.name hfld))]
      rw [if_pos hc, dlookup_dset, if_pos rfl]
    · exact ih _ hnd.2 hmt hc

/-- The instance-field fold preserves key uniqueness of the payload. -/
lemma mergeFold_nodup (c : FieldMeta → Bool) (g : FieldMeta → Val) :
    ∀ (fields : List FieldMeta) (ini : List (String × Val)),
      (ini.map Prod.fst).Nodup →
      ((fields.foldl
        (fun ini f => if c f then dset ini f.name (g f) else ini) ini).map
          Prod.fst).Nodup := by
  intro fields
  induction fields with
  | nil => intro ini h; exact h
  | cons f t ih =>
    intro ini h
    show ((t.foldl _ (if c f then dset ini f.name (g f) else ini)).map
      Prod.fst).Nodup
    apply ih
    by_cases hc : c f
    · rw [if_pos hc]; exact nodup_dset ini f.name (g f) h
    · rw [if_neg hc]; exact h

/-- If no processed item of `l` emits the key `q`, the loop leaves the
payload entry of `q` unchanged. -/
lemma runItems_preserves (form : Form) (q : String) :
    ∀ (l data res : List (String × Val)),
      runItems form l data = .ok res →
      (∀ kv ∈ l, ∀ items, processItem form kv.1 kv.2 = .ok items →
        q ∉ items.map Prod.fst) →
      dlookup q res = dlookup q data := by
  intro l
  induction l with
  | nil =>
    intro data res hok _
    simp only [runItems] at hok
    injection hok with h
    rw [h]
  | cons kv t ih =>
    intro data res hok hno
    obtain ⟨k, v⟩ := kv
    simp only [runItems] at hok
    cases hpi : processItem form k v with
    | error e =>
      rw [hpi] at hok
      simp at hok
    | ok items =>
      rw [hpi] at hok
      have h1 := ih (dictUpdate data items) res hok
        (fun kv hkv => hno kv (List.mem_cons_of_mem _ hkv))
      rw [h1, dlookup_dictUpdate,
        dlookup_pyDictOf_eq_none items q
          (hno (k, v) (List.mem_cons_self _ _) items hpi)]
      rfl

/-- Processing a decomposed item list whose distinguished item is the
primary-key item sets the payload entry of `q` to `v0`, provided no later
item emits `q`. -/
lemma runItems_sets (form : Form) (q : String) (v0 : Val)
    (hq : processItem form q v0 = .ok [(q, v0)]) :
    ∀ (l1 l2 data res : List (String × Val)),
      runItems form (l1 ++ (q, v0) :: l2) data = .ok res →
      (∀ kv ∈ l2, ∀ items, processItem form kv.1 kv.2 = .ok items →
        q ∉ items.map Prod.fst) →
      dlookup q res = some v0 := by
  intro l1
  induction l1 with
  | nil =>
    intro l2 data res hok hno
    simp only [List.nil_append, runItems, hq] at hok
    rw [runItems_preserves form q l2 (dictUpdate data [(q, v0)]) res hok hno]
    rw [show dictUpdate data [(q, v0)] = dset data q v0 from rfl]
    rw [dlookup_dset, if_pos rfl]
  | cons kv t ih =>
    intro l2 data res hok hno
    obtain ⟨k, v⟩ := kv
    simp only [List.cons_append, runItems] at hok
    cases hpi : processItem form k v with
    | error e =>
      rw [hpi] at hok
      simp at hok
    | ok items =>
      rw [hpi] at hok
      exact ih l2 (dictUpdate data items) res hok hno

/-- A dictionary with unique keys containing `q ↦ v0` splits around that
entry, with no `q` key in the suffix. -/
lemma exists_decomp_of_dlookup (q : String) (v0 : Val) :
    ∀ d : List (String × Val), (d.map Prod.fst).Nodup →
      dlookup q d = some v0 →
      ∃ l1 l2, d = l1 ++ (q, v0) :: l2 ∧ q ∉ l2.map Prod.fst := by
  intro d
  induction d with
  | nil => intro _ hl; simp [dlookup] at hl
  | cons kv t ih =>
    intro hnd hl
    obtain ⟨k, v⟩ := kv
    rw [List.map_cons, List.nodup_cons] at hnd
    by_cases hq : q = k
    · subst hq
      simp only [dlookup, if_pos rfl] at hl
      injection hl with hv
      exact ⟨[], t, by rw [hv]; rfl, hnd.1⟩
    · simp only [dlookup, if_neg hq] at hl
      obtain ⟨l1, l2, hdec, hq2⟩ := ih hnd.2 hl
      exact ⟨(k, v) :: l1, l2, by rw [hdec]; rfl, hq2⟩

/-- Under name uniqueness, `find?` at a member's name returns exactly
that member. -/
lemma find?_name_of_nodup :
    ∀ fs : List FieldMeta, (fs.map FieldMeta.name).Nodup →
      ∀ pkf ∈ fs, fs.find? (fun f => f.name == pkf.name) = some pkf := by
  intro fs
  induction fs with
  | nil => intro _ pkf hm; cases hm
  | cons f t ih =>
    intro hnd pkf hm
    rw [List.map_cons, List.nodup_cons] at hnd
    rcases List.mem_cons.mp hm with rfl | hmt
    · rw [List.find?_cons_of_pos _ (by simp)]
    · have hne : f.name ≠ pkf.name := fun he =>
        hnd.1 (he ▸ List.mem_map_of_mem FieldMeta.name hmt)
      rw [List.find?_cons_of_neg _ (by simp [hne])]
      exact ih hnd.2 pkf hmt

lemma getField_of_mem_nodup (m : ModelMeta) (pkf : FieldMeta)
    (hnd : (m.localFields.map FieldMeta.name).Nodup)
    (hm : pkf ∈ m.localFields) :
    m.getField pkf.name = some pkf :=
  find?_name_of_nodup m.localFields hnd pkf hm

/-- The `KeyError` branch of `get_form_data` at a primary-key name not
declared on the form keeps the value under the bare key. -/
lemma processItem_pk (form : Form) (pkf : FieldMeta) (v0 : Val)
    (habs : dlookup pkf.name form.fields = none)
    (hgf : form.meta_model.getField pkf.name = some pkf)
    (hpk : pkf.primary_key = true) :
    processItem form pkf.name v0 = .ok [(pkf.name, v0)] := by
  unfold processItem
  rw [habs, hgf]
  simp [hpk]

/-- C6: `get_form_data` behaves identically on a proxy model and on the
first non-proxy ancestor reached by repeatedly following
`proxy_for_model`; and whenever the form is bound to an instance with a
truthy primary key, the payload it produces contains the instance's
primary-key value under the bare field name, even though the primary key
is not among the form's declared fields (via the `KeyError` branch that
keeps values of model fields marked `primary_key`). -/
theorem C6_get_form_data_proxy_pk (form : Form) (inst : PyInstance)
    (pkf : FieldMeta) (data : List (String × Val))
    (hinst : form.inst = some inst)
    (hpk_truthy : inst.pk.truthy = true)
    (hpkf_mem : pkf ∈ form.meta_model.localFields)
    (hpkf_pk : pkf.primary_key = true)
    (hnd_names : (form.meta_model.localFields.map FieldMeta.name).Nodup)
    (hfield_absent : dlookup pkf.name form.fields = none)
    (hnd_ini : (form.initial.map Prod.fst).Nodup)
    (hok : get_form_data form = .ok data)
    (hnc : ∀ kv ∈ mergeInstanceFields form, kv.1 ≠ pkf.name →
      ∀ items, processItem form kv.1 kv.2 = .ok items →
        pkf.name ∉ items.map Prod.fst) :
    get_form_data { form with meta_model := form.meta_model.resolve }
        = get_form_data form
    ∧ dlookup pkf.name data = some (inst.attrs pkf.attname) := by
  refine ⟨get_form_data_resolve form, ?_⟩
  have hmerged : dlookup pkf.name (mergeInstanceFields form)
      = some (inst.attrs pkf.attname) := by
    unfold mergeInstanceFields
    rw [hinst]
    refine mergeFold_lookup_mem
      (fun f => (dlookup f.name form.fields).isSome
        || (f.primary_key && inst.pk.truthy))
      (fun f => inst.attrs f.attname) pkf
      form.meta_model.resolve.localFields form.initial ?_ ?_ ?_
    · rw [ModelMeta.localFields_resolve]; exact hnd_names
    · rw [ModelMeta.localFields_resolve]; exact hpkf_mem
    · show ((dlookup pkf.name form.fields).isSome
        || (pkf.primary_key && inst.pk.truthy)) = true
      rw [hfield_absent, hpkf_pk, hpk_truthy]
      rfl
  have hnd_merged : ((mergeInstanceFields form).map Prod.fst).Nodup := by
    unfold mergeInstanceFields
    rw [hinst]
    exact mergeFold_nodup _ _ _ form.initial hnd_ini
  obtain ⟨l1, l2, hdec, hq2⟩ :=
    exists_decomp_of_dlookup pkf.name (inst.attrs pkf.attname)
      (mergeInstanceFields form) hnd_merged hmerged
  have hpi : processItem form pkf.name (inst.attrs pkf.attname)
      = .ok [(pkf.name, inst.attrs pkf.attname)] :=
    processItem_pk form pkf _ hfield_absent
      (getField_of_mem_nodup form.meta_model pkf hnd_names hpkf_mem) hpkf_pk
  have hok2 : runItems form
      (l1 ++ (pkf.name, inst.attrs pkf.attname) :: l2) [] = .ok data := by
    rw [← hdec]
    exact hok
  refine runItems_sets form pkf.name (inst.attrs pkf.attname) hpi
    l1 l2 [] data hok2 ?_
  intro kv hkv items hitems
  have hmem : kv ∈ mergeInstanceFields form := by
    rw [hdec]
    exact List.mem_append_right l1 (List.mem_cons_of_mem _ hkv)
  have hne : kv.1 ≠ pkf.name := fun he =>
    hq2 (he ▸ List.mem_map_of_mem Prod.fst hkv)
  exact hnc kv hmem hne items hitems

def c6PidField : FieldMeta :=
  { name := "pid", attname := "pid", primary_key := true }

def c6NameField : FieldMeta :=
  { name := "name", attname := "name", primary_key := false }

/-- The bound instance used to witness C6 (pk 123, like the test
project). -/
def c6Inst : PyInstance :=
  { attrs := fun a =>
      if a = "pid" then Val.int 123
      else if a = "name" then Val.str "project" else Val.pynone
    pk := Val.int 123 }

/-- A form over a proxy model (like `InnerProject`) declaring only the
`name` field, used to witness C6. -/
def c6Form : Form :=
  { initial := [("name", Val.str "project")]
    fields := [("name", c5SimpleField)]
    inst := some c6Inst
    meta_model := .proxy (.concrete [c6PidField, c6NameField])
    pfx := none
    errors := [] }

/-- Witness for C6: on a proxy-model form bound to a saved instance, the
payload resolves through the proxy and contains the primary key `pid`
even though `pid` is not a declared form field. -/
theorem C6_witness :
    c6Form.inst = some c6Inst
    ∧ Val.truthy (Val.int 123) = true
    ∧ dlookup "pid" c6Form.fields = none
    ∧ get_form_data c6Form
        = .ok [("name", Val.str "project"), ("pid", Val.int 123)]
    ∧ get_form_data { c6Form with meta_model := c6Form.meta_model.resolve }
        = get_form_data c6Form
    ∧ dlookup "pid" [("name", Val.str "project"), ("pid", Val.int 123)]
        = some (Val.int 123) := by
  have hok : get_form_data c6Form
      = .ok [("name", Val.str "project"), ("pid", Val.int 123)] := rfl
  have hmerged : mergeInstanceFields c6Form
      = [("name", Val.str "project"), ("pid", Val.int 123)] := rfl
  have hnc : ∀ kv ∈ mergeInstanceFields c6Form, kv.1 ≠ "pid" →
      ∀ items, processItem c6Form kv.1 kv.2 = .ok items →
        "pid" ∉ items.map Prod.fst := by
    intro kv hkv hne items hitems
    rw [hmerged] at hkv
    rcases List.mem_cons.mp hkv with rfl | hkv2
    · rw [show processItem c6Form "name" (Val.str "project")
          = .ok [("name", Val.str "project")] from rfl] at hitems
      injection hitems with hi
      subst hi
      decide
    · rcases List.mem_cons.mp hkv2 with rfl | hkv3
      · exact absurd rfl hne
      · cases hkv3
  have h := C6_get_form_data_proxy_pk c6Form c6Inst c6PidField
    [("name", Val.str "project"), ("pid", Val.int 123)]
    rfl rfl (by decide) rfl (by decide) rfl (by decide) hok hnc
  exact ⟨rfl, rfl, rfl, hok, h.1, h.2⟩

/-! ### Further dictionary lemmas used by C2 -/

lemma oor_isSome {α : Type} (a b : Option α) :
    (oor a b).isSome = (a.isSome || b.isSome) := by
  cases a <;> rfl

lemma mem_keys_iff {κ ν : Type} [DecidableEq κ] (d : List (κ × ν)) (q : κ) :
    q ∈ d.map Prod.fst ↔ ∃ v, (q, v) ∈ d := by
  constructor
  · intro h
    obtain ⟨⟨a, b⟩, hm, he⟩ := List.mem_map.mp h
    cases he
    exact ⟨b, hm⟩
  · rintro ⟨v, hm⟩
    exact List.mem_map.mpr ⟨(q, v), hm, rfl⟩

lemma dlookup_isSome_iff_mem_keys {κ ν : Type} [DecidableEq κ]
    (d : List (κ × ν)) (q : κ) :
    (dlookup q d).isSome = true ↔ q ∈ d.map Prod.fst := by
  rw [Option.isSome_iff_ne_none, Ne, dlookup_eq_none_iff, not_not]

lemma dlookup_mem {κ ν : Type} [DecidableEq κ] (d : List (κ × ν))
    (q : κ) (v : ν) (h : dlookup q d = some v) : (q, v) ∈ d := by
  induction d with
  | nil => simp [dlookup] at h
  | cons kv t ih =>
    obtain ⟨k, w⟩ := kv
    by_cases hq : q = k
    · subst hq
      simp only [dlookup, if_pos rfl] at h
      injection h with h
      rw [← h]
      exact List.mem_cons_self _ _
    · simp only [dlookup, if_neg hq] at h
      exact List.mem_cons_of_mem _ (ih h)

lemma mem_dset_sub {κ ν : Type} [DecidableEq κ] (d : List (κ × ν))
    (k : κ) (v : ν) (e : κ × ν) (h : e ∈ dset d k v) :
    e = (k, v) ∨ e ∈ d := by
  induction d with
  | nil => simpa [dset] using h
  | cons kv t ih =>
    obtain ⟨k', v'⟩ := kv
    by_cases hk : k' = k
    · subst hk
      rcases List.mem_cons.mp (by simpa [dset] using h) with rfl | hm
      · exact Or.inl rfl
      · exact Or.inr (List.mem_cons_of_mem _ hm)
    · rcases List.mem_cons.mp (by simpa [dset, hk] using h) with rfl | hm
      · exact Or.inr (List.mem_cons_self _ _)
      · rcases ih hm with he | he
        · exact Or.inl he
        · exact Or.inr (List.mem_cons_of_mem _ he)

lemma mem_dictUpdate_sub {κ ν : Type} [DecidableEq κ]
    (s d : List (κ × ν)) (e : κ × ν) (h : e ∈ dictUpdate d s) :
    e ∈ d ∨ e ∈ s := by
  induction s generalizing d with
  | nil => exact Or.inl h
  | cons kv t ih =>
    obtain ⟨k, v⟩ := kv
    rcases ih (dset d k v) h with hm | hm
    · rcases mem_dset_sub d k v e hm with rfl | hm2
      · exact Or.inr (List.mem_cons_self _ _)
      · exact Or.inl hm2
    · exact Or.inr (List.mem_cons_of_mem _ hm)

lemma dlookup_dictUpdate_isSome {κ ν : Type} [DecidableEq κ]
    (s d : List (κ × ν)) (q : κ) :
    (dlookup q (dictUpdate d s)).isSome = true
      ↔ (dlookup q d).isSome = true ∨ ∃ v, (q, v) ∈ s := by
  rw [dlookup_isSome_iff_mem_keys, mem_keys_dictUpdate,
    ← dlookup_isSome_iff_mem_keys, mem_keys_iff]

lemma dlookup_dictUpdate_some {κ ν : Type} [DecidableEq κ]
    (s d : List (κ × ν)) (q : κ) (v : ν)
    (h : dlookup q (dictUpdate d s) = some v) :
    (q, v) ∈ s ∨ dlookup q d = some v := by
  rw [dlookup_dictUpdate] at h
  rcases hx : dlookup q (pyDictOf s) with _ | w
  · rw [hx] at h
    exact Or.inr h
  · rw [hx] at h
    have hw : w = v := by
      simpa [oor] using h
    subst hw
    rcases mem_dictUpdate_sub s [] _ (dlookup_mem _ _ _ hx) with hm | hm
    · cases hm
    · exact Or.inl hm

/-! ### C2 and C9: response context and error collection -/

/-- One entry of `cd['inline_admin_formsets']`: the wrapped formset's
member forms (`formset.forms`) and management form, the formset's
non-form errors and prefix, the number of rendered admin forms
(`len(inline_formset.forms)`), the number of initial (saved-record) forms
among them, and the configured `opts.extra`. -/
structure InlineAdminFormset where
  formset_forms : List Form
  management_form : Form
  non_form_errors : List String
  formset_pfx : String
  forms_count : Nat
  initial_forms : Nat
  extra : Nat

/-- The response context read by `get_errors_from_response` and
`get_form_data_from_response`: the status code, `cd['adminform'].form`
and `cd['inline_admin_formsets']`. -/
structure ResponseCtx where
  status_code : Nat
  adminform : Form
  inline_admin_formsets : List InlineAdminFormset

/-- The per-formset body of the `get_errors_from_response` loop: form
errors, then management-form errors, then (only if non-empty) the
formset's non-form errors under the key `non_form_errors`. -/
def formsetErrors (data : List (String × List String))
    (ifs : InlineAdminFormset) : List (String × List String) :=
  let data1 := ifs.formset_forms.foldl (fun d f => dictUpdate d f.errors) data
  let data2 := dictUpdate data1 ifs.management_form.errors
  if ifs.non_form_errors ≠ [] then
    dset data2 "non_form_errors" ifs.non_form_errors
  else data2

/-- `AdminBaseTestCase.get_errors_from_response`. -/
def get_errors_from_response (r : ResponseCtx) :
    List (String × List String) :=
  if r.status_code = 302 then [] else
    let data := dictUpdate [] r.adminform.errors
    r.inline_admin_formsets.foldl formsetErrors data

/-- Where a key of the collected error dictionary can come from inside
one inline formset (C2's enumeration of sources). -/
def formsetKeySource (ifs : InlineAdminFormset) (q : String) : Prop :=
  (∃ f ∈ ifs.formset_forms, ∃ v, (q, v) ∈ f.errors)
  ∨ (∃ v, (q, v) ∈ ifs.management_form.errors)
  ∨ (q = "non_form_errors" ∧ ifs.non_form_errors ≠ [])

/-- Where a key of the collected error dictionary can come from (C2's
enumeration of sources). -/
def errKeySource (r : ResponseCtx) (q : String) : Prop :=
  (∃ v, (q, v) ∈ r.adminform.errors)
  ∨ ∃ ifs ∈ r.inline_admin_formsets, formsetKeySource ifs q

/-- Which key/value pairs one inline formset can contribute. -/
def formsetValSource (ifs : InlineAdminFormset) (q : String)
    (v : List String) : Prop :=
  (∃ f ∈ ifs.formset_forms, (q, v) ∈ f.errors)
  ∨ (q, v) ∈ ifs.management_form.errors
  ∨ (q = "non_form_errors" ∧ v = ifs.non_form_errors
      ∧ ifs.non_form_errors ≠ [])

/-- Which key/value pairs the collected error dictionary can hold. -/
def errValSource (r : ResponseCtx) (q : String) (v : List String) : Prop :=
  (q, v) ∈ r.adminform.errors
  ∨ ∃ ifs ∈ r.inline_admin_formsets, formsetValSource ifs q v

lemma forms_fold_isSome (fs : List Form) :
    ∀ (data : List (String × List String)) (q : String),
      (dlookup q (fs.foldl (fun d f => dictUpdate d f.errors) data)).isSome
          = true
        ↔ (dlookup q data).isSome = true ∨ ∃ f ∈ fs, ∃ v, (q, v) ∈ f.errors := by
  induction fs with
  | nil => intro data q; simp
  | cons f t ih =>
    intro data q
    show (dlookup q (t.foldl _ (dictUpdate data f.errors))).isSome = true ↔ _
    rw [ih, dlookup_dictUpdate_isSome]
    simp [List.exists_mem_cons_iff]
    tauto

lemma forms_fold_some (fs : List Form) :
    ∀ (data : List (String × List String)) (q : String) (v : List String),
      dlookup q (fs.foldl (fun d f => dictUpdate d f.errors) data) = some v →
      dlookup q data = some v ∨ ∃ f ∈ fs, (q, v) ∈ f.errors := by
  induction fs with
  | nil => intro data q v h; exact Or.inl h
  | cons f t ih =>
    intro data q v h
    rcases ih _ _ _ h with h2 | h2
    · rcases dlookup_dictUpdate_some f.errors data q v h2 with hm | hm
      · exact Or.inr ⟨f, List.mem_cons_self _ _, hm⟩
      · exact Or.inl hm
    · obtain ⟨g, hg, hm⟩ := h2
      exact Or.inr ⟨g, List.mem_cons_of_mem _ hg, hm⟩

lemma formsetErrors_isSome (data : List (String × List String))
    (ifs : InlineAdminFormset) (q : String) :
    (dlookup q (formsetErrors data ifs)).isSome = true
      ↔ (dlookup q data).isSome = true ∨ formsetKeySource ifs q := by
  simp only [formsetErrors, formsetKeySource]
  by_cases hne : ifs.non_form_errors ≠ []
  · rw [if_pos hne, dlookup_dset]
    by_cases hq : q = "non_form_errors"
    · rw [if_pos hq]
      exact ⟨fun _ => Or.inr (Or.inr (Or.inr ⟨hq, hne⟩)), fun _ => rfl⟩
    · rw [if_neg hq]
      rw [dlookup_dictUpdate_isSome, forms_fold_isSome]
      constructor
      · rintro ((h | h) | h)
        exacts [Or.inl h, Or.inr (Or.inl h), Or.inr (Or.inr (Or.inl h))]
      · rintro (h | h | h | ⟨hq2, _⟩)
        exacts [Or.inl (Or.inl h), Or.inl (Or.inr h), Or.inr h,
          absurd hq2 hq]
  · have he := not_not.mp hne
    rw [if_neg hne]
    rw [dlookup_dictUpdate_isSome, forms_fold_isSome]
    constructor
    · rintro ((h | h) | h)
      exacts [Or.inl h, Or.inr (Or.inl h), Or.inr (Or.inr (Or.inl h))]
    · rintro (h | h | h | ⟨_, hne2⟩)
      exacts [Or.inl (Or.inl h), Or.inl (Or.inr h), Or.inr h,
        absurd he hne2]

lemma formsetErrors_some (data : List (String × List String))
    (ifs : InlineAdminFormset) (q : String) (v : List String)
    (h : dlookup q (formsetErrors data ifs) = some v) :
    dlookup q data = some v ∨ formsetValSource ifs q v := by
  simp only [formsetErrors] at h
  unfold formsetValSource
  by_cases hne : ifs.non_form_errors ≠ []
  · rw [if_pos hne, dlookup_dset] at h
    by_cases hq : q = "non_form_errors"
    · rw [if_pos hq] at h
      injection h with h
      exact Or.inr (Or.inr (Or.inr ⟨hq, h.symm, hne⟩))
    · rw [if_neg hq] at h
      rcases dlookup_dictUpdate_some _ _ _ _ h with hm | hm
      · exact Or.inr (Or.inr (Or.inl hm))
      · rcases forms_fold_some _ _ _ _ hm with h2 | h2
        · exact Or.inl h2
        · exact Or.inr (Or.inl h2)
  · rw [if_neg hne] at h
    rcases dlookup_dictUpdate_some _ _ _ _ h with hm | hm
    · exact Or.inr (Or.inr (Or.inl hm))
    · rcases forms_fold_some _ _ _ _ hm with h2 | h2
      · exact Or.inl h2
      · exact Or.inr (Or.inl h2)

lemma formsets_fold_isSome (l : List InlineAdminFormset) :
    ∀ (data : List (String × List String)) (q : String),
      (dlookup q (l.foldl formsetErrors data)).isSome = true
        ↔ (dlookup q data).isSome = true
          ∨ ∃ ifs ∈ l, formsetKeySource ifs q := by
  induction l with
  | nil => intro data q; simp
  | cons ifs t ih =>
    intro data q
    show (dlookup q (t.foldl formsetErrors (formsetErrors data ifs))).isSome
        = true ↔ _
    rw [ih, formsetErrors_isSome]
    simp [List.exists_mem_cons_iff]
    tauto

lemma formsets_fold_some (l : List InlineAdminFormset) :
    ∀ (data : List (String × List String)) (q : String) (v : List String),
      dlookup q (l.foldl formsetErrors data) = some v →
      dlookup q data = some v ∨ ∃ ifs ∈ l, formsetValSource ifs q v := by
  induction l with
  | nil => intro data q v h; exact Or.inl h
  | cons ifs t ih =>
    intro data q v h
    rcases ih _ _ _ h with h2 | h2
    · rcases formsetErrors_some _ _ _ _ h2 with hm | hm
      · exact Or.inl hm
      · exact Or.inr ⟨ifs, List.mem_cons_self _ _, hm⟩
    · obtain ⟨g, hg, hm⟩ := h2
      exact Or.inr ⟨g, List.mem_cons_of_mem _ hg, hm⟩

/-- C2: `get_errors_from_response` is empty on a 302 redirect; otherwise
its keys are exactly the union of the main admin form's error keys, the
error keys of every form of every inline formset, every management form's
error keys, and `non_form_errors` exactly for formsets with non-empty
non-form errors; and every collected value comes from one of those
sources. -/
theorem C2_get_errors_from_response (r : ResponseCtx) :
    get_errors_from_response { r with status_code := 302 } = []
    ∧ (∀ q, (dlookup q (get_errors_from_response r)).isSome = true
        ↔ (r.status_code ≠ 302 ∧ errKeySource r q))
    ∧ (∀ q v, dlookup q (get_errors_from_response r) = some v →
        errValSource r q v) := by
  refine ⟨by simp [get_errors_from_response], ?_, ?_⟩
  · intro q
    by_cases h302 : r.status_code = 302
    · simp [get_errors_from_response, h302, dlookup]
    · rw [get_errors_from_response, if_neg h302]
      rw [formsets_fold_isSome, dlookup_dictUpdate_isSome]
      simp only [errKeySource, dlookup, Option.isSome_none,
        Bool.false_eq_true, false_or]
      constructor
      · intro h
        exact ⟨h302, h⟩
      · intro h
        exact h.2
  · intro q v h
    by_cases h302 : r.status_code = 302
    · rw [get_errors_from_response, if_pos h302] at h
      simp [dlookup] at h
    · rw [get_errors_from_response, if_neg h302] at h
      unfold errValSource
      rcases formsets_fold_some _ _ _ _ h with h2 | h2
      · rcases dlookup_dictUpdate_some _ _ _ _ h2 with hm | hm
        · exact Or.inl hm
        · simp [dlookup] at hm
      · exact Or.inr h2

/-- A form with no data, used as scaffolding in concrete witnesses. -/
def emptyForm : Form :=
  { initial := [], fields := [], inst := none, meta_model := .concrete []
    pfx := none, errors := [] }

def c2MainForm : Form :=
  { emptyForm with errors := [("name", ["This field is required."])] }

def c2InlineForm : Form :=
  { emptyForm with errors := [("attachment", ["This field is required."])] }

/-- A concrete response (status 200) whose main form, inline form and
formset non-form errors are all non-empty, witnessing C2. -/
def c2Resp : ResponseCtx :=
  { status_code := 200
    adminform := c2MainForm
    inline_admin_formsets :=
      [{ formset_forms := [c2InlineForm]
         management_form := emptyForm
         non_form_errors := ["Please submit at most 2 forms."]
         formset_pfx := "task_set"
         forms_count := 3
         initial_forms := 2
         extra := 1 }] }

/-- Witness for C2 at a concrete response: forcing status 302 empties the
result, `non_form_errors` is collected exactly because some formset has
non-empty non-form errors, and the collected `name` errors come from one
of the enumerated sources. -/
theorem C2_witness :
    get_errors_from_response { c2Resp with status_code := 302 } = []
    ∧ ((dlookup "non_form_errors"
          (get_errors_from_response c2Resp)).isSome = true
        ↔ (c2Resp.status_code ≠ 302
            ∧ errKeySource c2Resp "non_form_errors"))
    ∧ errValSource c2Resp "name" ["This field is required."] := by
  have h := C2_get_errors_from_response c2Resp
  exact ⟨h.1, h.2.1 "non_form_errors",
    h.2.2 "name" ["This field is required."] rfl⟩

/-! ### C9: `get_form_data_from_response` and the Empty AdminInline assert -/

/-- True exactly on `Except.ok`. -/
def isOkE {ε α : Type} : Except ε α → Bool
  | .ok _ => true
  | .error _ => false

/-- The member-form loop of `get_form_data_from_response`. -/
def runForms :
    List Form → List (String × Val) → Except PyErr (List (String × Val))
  | [], data => .ok data
  | f :: t, data =>
    match get_form_data f with
    | .error e => .error e
    | .ok fd => runForms t (dictUpdate data fd)

/-- The formset loop of `get_form_data_from_response`: each formset first
asserts `forms_count > extra` (`assertGreater`), aborting with an
`Empty AdminInline {prefix}` assertion error otherwise, then collects the
member forms' data and the management form's data. -/
def runFormsets :
    List InlineAdminFormset → List (String × Val) →
      Except PyErr (List (String × Val))
  | [], data => .ok data
  | ifs :: rest, data =>
    if ifs.forms_count > ifs.extra then
      match runForms ifs.formset_forms data with
      | .error e => .error e
      | .ok d1 =>
        match get_form_data ifs.management_form with
        | .error e => .error e
        | .ok md => runFormsets rest (dictUpdate d1 md)
    else .error (.assertionError ("Empty AdminInline " ++ ifs.formset_pfx))

/-- `AdminBaseTestCase.get_form_data_from_response`. -/
def get_form_data_from_response (r : ResponseCtx) :
    Except PyErr (List (String × Val)) :=
  match get_form_data r.adminform with
  | .error e => .error e
  | .ok fd =>
    runFormsets r.inline_admin_formsets
      (dictUpdate (dset [] "_continue" (Val.str "save and continue")) fd)

/-- All form-data extractions of the page succeed (no
`FieldDoesNotExist`): the main form's, every formset member form's and
every management form's. -/
def formsOk (r : ResponseCtx) : Prop :=
  isOkE (get_form_data r.adminform) = true
  ∧ ∀ ifs ∈ r.inline_admin_formsets,
      (∀ f ∈ ifs.formset_forms, isOkE (get_form_data f) = true)
      ∧ isOkE (get_form_data ifs.management_form) = true

lemma runForms_ok :
    ∀ (fs : List Form) (data : List (String × Val)),
      (∀ f ∈ fs, isOkE (get_form_data f) = true) →
      ∃ d, runForms fs data = .ok d := by
  intro fs
  induction fs with
  | nil => intro data _; exact ⟨data, rfl⟩
  | cons f t ih =>
    intro data hok
    cases hf : get_form_data f with
    | error e =>
      have := hok f (List.mem_cons_self _ _)
      rw [hf] at this
      cases this
    | ok fd =>
      obtain ⟨d, hd⟩ := ih (dictUpdate data fd)
        (fun g hg => hok g (List.mem_cons_of_mem _ hg))
      exact ⟨d, by simp only [runForms, hf]; exact hd⟩

lemma runFormsets_cases :
    ∀ (l : List InlineAdminFormset) (data : List (String × Val)),
      (∀ ifs ∈ l, (∀ f ∈ ifs.formset_forms, isOkE (get_form_data f) = true)
        ∧ isOkE (get_form_data ifs.management_form) = true) →
      ((∀ ifs ∈ l, ifs.forms_count > ifs.extra) →
        isOkE (runFormsets l data) = true)
      ∧ ((∃ ifs ∈ l, ¬ ifs.forms_count > ifs.extra) →
          ∃ msg, runFormsets l data = .error (.assertionError msg)
            ∧ ∃ ifs ∈ l, ¬ ifs.forms_count > ifs.extra
              ∧ msg = "Empty AdminInline " ++ ifs.formset_pfx) := by
  intro l
  induction l with
  | nil =>
    intro data _
    refine ⟨fun _ => rfl, ?_⟩
    rintro ⟨ifs, hm, _⟩
    cases hm
  | cons ifs rest ih =>
    intro data hok
    by_cases hgt : ifs.forms_count > ifs.extra
    · obtain ⟨d1, hd1⟩ := runForms_ok ifs.formset_forms data
        (hok ifs (List.mem_cons_self _ _)).1
      cases hmg : get_form_data ifs.management_form with
      | error e =>
        have := (hok ifs (List.mem_cons_self _ _)).2
        rw [hmg] at this
        cases this
      | ok md =>
        have heq : runFormsets (ifs :: rest) data
            = runFormsets rest (dictUpdate d1 md) := by
          simp only [runFormsets, if_pos hgt, hd1, hmg]
        have ihr := ih (dictUpdate d1 md)
          (fun g hg => hok g (List.mem_cons_of_mem _ hg))
        constructor
        · intro hall
          rw [heq]
          exact ihr.1 (fun g hg => hall g (List.mem_cons_of_mem _ hg))
        · rintro ⟨g, hgm, hgle⟩
          rcases List.mem_cons.mp hgm with rfl | hgm2
          · exact absurd hgt hgle
          · obtain ⟨msg, hmsg, g2, hg2, hle2, hm2⟩ := ihr.2 ⟨g, hgm2, hgle⟩
            exact ⟨msg, heq ▸ hmsg,
              g2, List.mem_cons_of_mem _ hg2, hle2, hm2⟩
    · have heq : runFormsets (ifs :: rest) data
          = .error (.assertionError ("Empty AdminInline " ++ ifs.formset_pfx)) := by
        simp only [runFormsets, if_neg hgt]
      constructor
      · intro hall
        exact absurd (hall ifs (List.mem_cons_self _ _)) hgt
      · intro _
        exact ⟨"Empty AdminInline " ++ ifs.formset_pfx, heq,
          ifs, List.mem_cons_self _ _, hgt, rfl⟩

/-- C9: when every per-form extraction succeeds,
`get_form_data_from_response` aborts with an `Empty AdminInline`
assertion error exactly when some inline formset renders no more forms
than its configured `extra`; and, since a rendered formset shows
`initial_forms + extra` forms, reconstruction succeeds exactly when every
inline formset contains at least one saved record. -/
theorem C9_get_form_data_from_response (r : ResponseCtx)
    (hok : formsOk r) :
    ((∃ ifs ∈ r.inline_admin_formsets, ¬ ifs.forms_count > ifs.extra)
      ↔ ∃ msg, get_form_data_from_response r
            = .error (.assertionError msg)
          ∧ ∃ ifs ∈ r.inline_admin_formsets,
              ¬ ifs.forms_count > ifs.extra
              ∧ msg = "Empty AdminInline " ++ ifs.formset_pfx)
    ∧ ((∀ ifs ∈ r.inline_admin_formsets,
          ifs.forms_count = ifs.initial_forms + ifs.extra) →
        (isOkE (get_form_data_from_response r) = true
          ↔ ∀ ifs ∈ r.inline_admin_formsets, 1 ≤ ifs.initial_forms)) := by
  obtain ⟨hmain, hfs⟩ := hok
  cases hm : get_form_data r.adminform with
  | error e =>
    rw [hm] at hmain
    cases hmain
  | ok fd =>
    have heq : get_form_data_from_response r
        = runFormsets r.inline_admin_formsets
            (dictUpdate (dset [] "_continue" (Val.str "save and continue")) fd) := by
      simp only [get_form_data_from_response, hm]
    have hcases := runFormsets_cases r.inline_admin_formsets
      (dictUpdate (dset [] "_continue" (Val.str "save and continue")) fd) hfs
    constructor
    · constructor
      · intro hex
        obtain ⟨msg, hmsg, hrest⟩ := hcases.2 hex
        exact ⟨msg, heq ▸ hmsg, hrest⟩
      · rintro ⟨msg, _, g, hg, hle, _⟩
        exact ⟨g, hg, hle⟩
    · intro hcnt
      constructor
      · intro hokr g hg
        by_contra hlt
        have hex : ∃ ifs ∈ r.inline_admin_formsets,
            ¬ ifs.forms_count > ifs.extra := by
          refine ⟨g, hg, ?_⟩
          rw [hcnt g hg]
          omega
        obtain ⟨msg, hmsg, _⟩ := hcases.2 hex
        rw [heq, hmsg] at hokr
        cases hokr
      · intro hall
        rw [heq]
        refine hcases.1 ?_
        intro g hg
        rw [hcnt g hg]
        have := hall g hg
        omega

/-- A concrete formset rendering only its single extra form (no saved
record), used to witness C9. -/
def c9Formset : InlineAdminFormset :=
  { formset_forms := []
    management_form := emptyForm
    non_form_errors := []
    formset_pfx := "task_set"
    forms_count := 1
    initial_forms := 0
    extra := 1 }

def c9Resp : ResponseCtx :=
  { status_code := 200
    adminform := emptyForm
    inline_admin_formsets := [c9Formset] }

/-- Witness for C9: on a page whose only inline formset shows no saved
record, reconstruction aborts with the `Empty AdminInline` assertion
error, and success is equivalent to every formset holding a saved
record. -/
theorem C9_witness :
    formsOk c9Resp
    ∧ (∃ msg, get_form_data_from_response c9Resp
          = .error (.assertionError msg)
        ∧ ∃ ifs ∈ c9Resp.inline_admin_formsets,
            ¬ ifs.forms_count > ifs.extra
            ∧ msg = "Empty AdminInline " ++ ifs.formset_pfx)
    ∧ (isOkE (get_form_data_from_response c9Resp) = true
        ↔ ∀ ifs ∈ c9Resp.inline_admin_formsets, 1 ≤ ifs.initial_forms) := by
  have hok : formsOk c9Resp := by
    refine ⟨rfl, ?_⟩
    intro ifs hm
    rcases List.mem_cons.mp hm with rfl | h
    · exact ⟨fun f hf => absurd hf (List.not_mem_nil f), rfl⟩
    · cases h
  have h := C9_get_form_data_from_response c9Resp hok
  refine ⟨hok, h.1.mp ⟨c9Formset, List.mem_cons_self _ _, by decide⟩,
    h.2 ?_⟩
  intro ifs hm
  rcases List.mem_cons.mp hm with rfl | h2
  · rfl
  · cases h2

/-! ### C8: `BaseTestCaseMeta.__setattr__` and `refresh_objects` -/

/-- An in-memory model object: primary key, field values and the
relational-field cache (`_state.fields_cache`). -/
structure MObj where
  pk : Val
  fields : List (String × Val)
  fields_cache : List (String × Val)

/-- The heap of in-memory model objects, addressed by reference. -/
def Heap : Type := Nat → MObj

/-- A class-attribute value: a model instance (by reference) or any
other Python value. -/
inductive AttrVal where
  | model (ref : Nat)
  | other (v : Val)

/-- Class-level state of a `BaseTestCase` subclass: the attribute
dictionary and the `_created_objects` list of (pk at assignment, object)
pairs. -/
structure ClsState where
  attrs : List (String × AttrVal)
  created : List (Val × Nat)

/-- `BaseTestCaseMeta.__setattr__`: model-instance values are appended to
`_created_objects` together with their primary key read at assignment
time; every value is then stored as a class attribute. -/
def metaSetattr (st : ClsState) (heap : Heap) (key : String)
    (value : AttrVal) : ClsState :=
  match value with
  | .model ref =>
    { attrs := dset st.attrs key value
      created := st.created ++ [((heap ref).pk, ref)] }
  | .other _ => { st with attrs := dset st.attrs key value }

/-- The database as seen by `refresh_from_db`: rows of pk and fields. -/
def Db : Type := List (Val × List (String × Val))

/-- The row with the given primary key, when it still exists. -/
def dbGet (db : Db) (pk : Val) : Option (List (String × Val)) :=
  (db.find? (fun row => row.1 == pk)).map Prod.snd

/-- Pointwise heap update. -/
def hupdate (h : Heap) (ref : Nat) (o : MObj) : Heap :=
  fun r => if r = ref then o else h r

/-- One iteration of the `refresh_objects` loop: restore the recorded
primary key, then `refresh_from_db` inside `try` — when the row still
exists the fields are reloaded and the relational cache cleared, and a
missing row (`ObjectDoesNotExist`) is silently skipped, leaving the old
fields and cache. -/
def refreshOne (db : Db) (heap : Heap) (entry : Val × Nat) : Heap :=
  let obj1 := { heap entry.2 with pk := entry.1 }
  match dbGet db entry.1 with
  | some fs =>
    hupdate heap entry.2 { obj1 with fields := fs, fields_cache := [] }
  | none => hupdate heap entry.2 obj1

/-- `BaseTestCase.refresh_objects`. -/
def refresh_objects (created : List (Val × Nat)) (db : Db) (heap : Heap) :
    Heap :=
  created.foldl (refreshOne db) heap

/-- `BaseTestCase.setUp` runs `refresh_objects` before every test, then
delegates to the framework's own set-up. -/
def baseSetUp (st : ClsState) (db : Db) (heap : Heap) : Heap :=
  refresh_objects st.created db heap

lemma hupdate_same (h : Heap) (ref : Nat) (o : MObj) :
    hupdate h ref o ref = o := by
  simp [hupdate]

lemma hupdate_ne (h : Heap) (ref r : Nat) (o : MObj) (hne : r ≠ ref) :
    hupdate h ref o r = h r := by
  simp [hupdate, hne]

lemma refresh_objects_frame (db : Db) :
    ∀ (created : List (Val × Nat)) (heap : Heap) (r : Nat),
      r ∉ created.map Prod.snd → refresh_objects created db heap r = heap r := by
  intro created
  induction created with
  | nil => intro heap r _; rfl
  | cons e t ih =>
    intro heap r hr
    have hr1 : r ≠ e.2 := fun he => hr (by simp [he])
    have hr2 : r ∉ t.map Prod.snd := fun hm => hr (by simp [hm])
    show refresh_objects t db (refreshOne db heap e) r = _
    rw [ih (refreshOne db heap e) r hr2]
    unfold refreshOne
    cases dbGet db e.1 <;> simp [hupdate_ne _ _ _ _ hr1]

/-- What `refresh_objects` does to each recorded object, assuming no
object is recorded twice. -/
lemma refresh_objects_spec (db : Db) :
    ∀ (created : List (Val × Nat)) (heap : Heap),
      (created.map Prod.snd).Nodup →
      ∀ entry ∈ created,
        (refresh_objects created db heap entry.2).pk = entry.1
        ∧ (∀ fs, dbGet db entry.1 = some fs →
            (refresh_objects created db heap entry.2).fields = fs
            ∧ (refresh_objects created db heap entry.2).fields_cache = [])
        ∧ (dbGet db entry.1 = none →
            (refresh_objects created db heap entry.2).fields
                = (heap entry.2).fields
            ∧ (refresh_objects created db heap entry.2).fields_cache
                = (heap entry.2).fields_cache) := by
  intro created
  induction created with
  | nil => intro heap _ entry hm; cases hm
  | cons e t ih =>
    intro heap hnd entry hm
    rw [List.map_cons, List.nodup_cons] at hnd
    have hstep : refresh_objects (e :: t) db heap
        = refresh_objects t db (refreshOne db heap e) := rfl
    rcases List.mem_cons.mp hm with rfl | hmt
    · have hframe : refresh_objects t db (refreshOne db heap entry) entry.2
          = refreshOne db heap entry entry.2 :=
        refresh_objects_frame db t (refreshOne db heap entry) entry.2 hnd.1
      rw [hstep, hframe]
      unfold refreshOne
      cases hdb : dbGet db entry.1 with
      | some fs =>
        refine ⟨by simp [hupdate_same], ?_, ?_⟩
        · intro fs2 hfs2
          injection hfs2 with hfs2
          subst hfs2
          exact ⟨by simp [hupdate_same], by simp [hupdate_same]⟩
        · intro hnone
          simp at hnone
      | none =>
        refine ⟨by simp [hupdate_same], ?_, ?_⟩
        · intro fs2 hfs2
          simp at hfs2
        · intro _
          exact ⟨by simp [hupdate_same], by simp [hupdate_same]⟩
    · have hne : entry.2 ≠ e.2 := fun he =>
        hnd.1 (he ▸ List.mem_map_of_mem Prod.snd hmt)
      have hheap : refreshOne db heap e entry.2 = heap entry.2 := by
        unfold refreshOne
        cases dbGet db e.1 <;> simp [hupdate_ne _ _ _ _ hne]
      have := ih (refreshOne db heap e) hnd.2 entry hmt
      rw [hstep]
      rw [hheap] at this
      exact this

/-- C8: `__setattr__` records each model instance with its primary key at
assignment time (and records nothing for non-model values), and `setUp`'s
`refresh_objects` restores each recorded object's primary key, reloads
its fields from the database and clears its relational cache, silently
skipping objects whose row no longer exists, while objects never recorded
are untouched. -/
theorem C8_refresh_objects (st : ClsState) (heap : Heap) (db : Db)
    (key : String) (ref : Nat)
    (hnd : (st.created.map Prod.snd).Nodup) :
    (metaSetattr st heap key (.model ref)).created
        = st.created ++ [((heap ref).pk, ref)]
    ∧ (∀ v, (metaSetattr st heap key (.other v)).created = st.created)
    ∧ (∀ entry ∈ st.created,
        (baseSetUp st db heap entry.2).pk = entry.1
        ∧ (∀ fs, dbGet db entry.1 = some fs →
            (baseSetUp st db heap entry.2).fields = fs
            ∧ (baseSetUp st db heap entry.2).fields_cache = [])
        ∧ (dbGet db entry.1 = none →
            (baseSetUp st db heap entry.2).fields = (heap entry.2).fields
            ∧ (baseSetUp st db heap entry.2).fields_cache
                = (heap entry.2).fields_cache))
    ∧ (∀ r, r ∉ st.created.map Prod.snd → baseSetUp st db heap r = heap r) := by
  refine ⟨rfl, fun v => rfl, ?_, ?_⟩
  · exact refresh_objects_spec db st.created heap hnd
  · exact refresh_objects_frame db st.created heap

/-- A heap whose objects all carry in-memory modifications (stale pk 7,
dirty field, populated relational cache), used to witness C8. -/
def c8Heap : Heap := fun _ =>
  { pk := Val.int 7
    fields := [("name", Val.str "dirty")]
    fields_cache := [("rel", Val.str "x")] }

def c8St : ClsState := { attrs := [], created := [(Val.int 5, 0)] }

def c8Db : Db := [(Val.int 5, [("name", Val.str "clean")])]

/-- Witness for C8: after `setUp`, the recorded object's pk is restored
to 5, its fields come back from the database row and its relational
cache is empty, while an unrecorded object is untouched; assignment of a
model records it with its pk. -/
theorem C8_witness :
    (c8St.created.map Prod.snd).Nodup
    ∧ (metaSetattr c8St c8Heap "project" (.model 3)).created
        = c8St.created ++ [((c8Heap 3).pk, 3)]
    ∧ (baseSetUp c8St c8Db c8Heap 0).pk = Val.int 5
    ∧ (baseSetUp c8St c8Db c8Heap 0).fields = [("name", Val.str "clean")]
    ∧ (baseSetUp c8St c8Db c8Heap 0).fields_cache = []
    ∧ baseSetUp c8St c8Db c8Heap 9 = c8Heap 9 := by
  have h := C8_refresh_objects c8St c8Heap c8Db "project" 3 (by decide)
  have hmem := h.2.2.1 (Val.int 5, 0) (by decide)
  have hrow := hmem.2.1 [("name", Val.str "clean")] rfl
  exact ⟨by decide, h.1, hmem.1, hrow.1, hrow.2, h.2.2.2 9 (by decide)⟩

/-! ### C7: the changelist paginator assertion -/

/-- A rendered page: status code and HTML text. -/
structure HtmlResponse where
  status_code : Nat
  text : String

/-- Model options used by `assert_row_count`: the verbose names. -/
structure ModelOpts where
  verbose_name : String
  verbose_name_plural : String

/-- Admin options used by `assert_row_count`: `list_editable`. -/
structure AdminOpts where
  list_editable : List String

/-- Modelled from the spec: `assertInHTML` accepts exactly when the
needle fragment occurs in the rendered page, modelled as substring
containment on the text. -/
def fragmentIn (needle hay : String) : Prop :=
  needle.data <:+: hay.data

/-- The Save submit-button markup interpolated into the paginator line
(`_("Save")` rendered in English). -/
def saveMarkup : String :=
  " <input type=\"submit\" name=\"_save\" class=\"default\" value=\"Save\">"

/-- `CommonAdminTests.assert_row_count`'s acceptance condition, translated
statement by statement: the page must return 200, the verbose name is
chosen by `count == 1`, the Save markup by the truthiness of
`list_editable`, and the assembled paginator fragment must occur in the
page. -/
def assert_row_count_passes (r : HtmlResponse) (count : Nat)
    (opts : ModelOpts) (adm : AdminOpts) : Prop :=
  let n := if count = 1 then opts.verbose_name else opts.verbose_name_plural
  let save := if adm.list_editable ≠ [] then saveMarkup else ""
  let marker := "<p class=\"paginator\">" ++ toString count ++ " "
    ++ n ++ save ++ "</p>"
  r.status_code = 200 ∧ fragmentIn marker r.text

/-- `CommonAdminTests.test_changelist`: asserts the row count of the
changelist page equals the model's current object count. -/
def test_changelist_passes (objects : List Val) (r : HtmlResponse)
    (opts : ModelOpts) (adm : AdminOpts) : Prop :=
  assert_row_count_passes r objects.length opts adm

/-- The paginator fragment as C7 words it: the count, the singular
verbose name exactly when the count equals one and the plural otherwise,
and the Save submit markup exactly when `list_editable` is non-empty. -/
def paginatorMarkerSpec (count : Nat) (opts : ModelOpts)
    (adm : AdminOpts) : String :=
  "<p class=\"paginator\">" ++ toString count ++ " "
    ++ (if count = 1 then opts.verbose_name else opts.verbose_name_plural)
    ++ (if adm.list_editable = [] then "" else saveMarkup)
    ++ "</p>"

/-- C7: the changelist assertion accepts a rendered page exactly when the
page returns 200 and contains the paginator fragment built from the
model's current object count, the singular verbose name exactly when that
count equals one (the plural otherwise), and the Save submit markup
exactly when `list_editable` is non-empty. -/
theorem C7_assert_row_count (r : HtmlResponse) (objects : List Val)
    (opts : ModelOpts) (adm : AdminOpts) :
    test_changelist_passes objects r opts adm
      ↔ (r.status_code = 200
          ∧ fragmentIn (paginatorMarkerSpec objects.length opts adm) r.text) := by
  by_cases h : adm.list_editable = [] <;>
    simp [test_changelist_passes, assert_row_count_passes,
      paginatorMarkerSpec, h]

/-! ### C3 and C4: admin flows under the frozen clock and permissions

The admin views themselves belong to the web framework, not to this
repository; the definitions below are modelled from the spec ("add/edit/
delete flows succeed or are denied, and timestamp fields update as
expected") so that the test flows of `CommonAdminTests`,
`ReadOnlyAdminTests` and `TimeMixin` can be run against them.  The value
`now` passed to a flow is whatever the patched `timezone.now` returns,
i.e. the test's frozen `self.now`. -/

/-- A simulated database object: primary key, a name field, and optional
`created`/`modified` timestamps. -/
structure SimObj where
  pk : Nat
  name : String
  created : Option Nat
  modified : Option Nat
deriving DecidableEq, Repr

/-- Simulated table: rows plus the next automatic primary key. -/
structure SimDb where
  rows : List SimObj
  nextPk : Nat
deriving DecidableEq, Repr

/-- Permissions granted by the `ModelAdmin` under test. -/
structure Perms where
  add : Bool
  change : Bool
  delete : Bool
deriving DecidableEq, Repr

/-- Whether the model has auto-now-add `created` and auto-now `modified`
fields. -/
structure ModelTraits where
  has_created : Bool
  has_modified : Bool
deriving DecidableEq, Repr

/-- A simulated admin response: status code and collected form errors. -/
structure SimResponse where
  status_code : Nat
  errors : List (String × List String)
deriving DecidableEq, Repr

/-- Modelled from the spec: the admin change-view POST.  A denied change
permission yields 403; a valid submission saves the object — an auto-now
`modified` field is set from the frozen `timezone.now()` — and redirects
with 302 and no errors. -/
def adminSavePost (p : Perms) (tr : ModelTraits) (now : Nat) (db : SimDb)
    (pk : Nat) (nm : String) : SimDb × SimResponse :=
  if !p.change then (db, { status_code := 403, errors := [] })
  else
    ({ db with rows := db.rows.map fun o =>
        if o.pk = pk then
          { o with
            name := nm
            modified := if tr.has_modified then some now else o.modified }
        else o },
      { status_code := 302, errors := [] })

/-- Modelled from the spec: the admin add-view POST.  A denied add
permission yields 403; otherwise a new object is appended, with
auto-now-add `created` and auto-now `modified` set from the frozen
clock, and the view redirects. -/
def adminCreatePost (p : Perms) (tr : ModelTraits) (now : Nat) (db : SimDb)
    (nm : String) : SimDb × SimResponse :=
  if !p.add then (db, { status_code := 403, errors := [] })
  else
    ({ rows := db.rows ++
        [{ pk := db.nextPk
           name := nm
           created := if tr.has_created then some now else none
           modified := if tr.has_modified then some now else none }]
       nextPk := db.nextPk + 1 },
      { status_code := 302, errors := [] })

/-- Modelled from the spec: the admin delete-view POST of
`{'post': 'yes'}`.  A denied delete permission yields 403; otherwise the
row is removed and the view redirects. -/
def adminDeletePost (p : Perms) (db : SimDb) (pk : Nat) :
    SimDb × SimResponse :=
  if !p.delete then (db, { status_code := 403, errors := [] })
  else
    ({ db with rows := db.rows.filter fun o => o.pk != pk },
      { status_code := 302, errors := [] })

/-- Modelled from the spec: GET of the add view; denied add yields 403,
otherwise the empty form renders with 200. -/
def adminAddGet (p : Perms) : SimResponse :=
  if !p.add then { status_code := 403, errors := [] }
  else { status_code := 200, errors := [] }

/-- `BaseTestCase.reload` over the simulated table: the row with the
object's primary key. -/
def simReload (db : SimDb) (pk : Nat) : Option SimObj :=
  db.rows.find? fun o => o.pk == pk

lemma find?_after_update (pk : Nat) (g : SimObj → SimObj)
    (hg : ∀ o, (g o).pk = o.pk) :
    ∀ (rows : List SimObj) (o : SimObj),
      rows.find? (fun o => o.pk == pk) = some o →
      (rows.map fun o => if o.pk = pk then g o else o).find?
          (fun o => o.pk == pk) = some (g o) := by
  intro rows
  induction rows with
  | nil => intro o h; simp at h
  | cons hd t ih =>
    intro o h
    by_cases hq : hd.pk = pk
    · rw [List.find?_cons_of_pos _ (by simp [hq])] at h
      injection h with h
      subst h
      rw [List.map_cons, if_pos hq]
      exact List.find?_cons_of_pos _ (by simp [hg, hq])
    · rw [List.find?_cons_of_neg _ (by simp [hq])] at h
      rw [List.map_cons, if_neg hq,
        List.find?_cons_of_neg _ (by simp [hq])]
      exact ih o h

/-- C3: `test_changeform_save` advances the frozen clock by one second
and saves through the change form: the view redirects without errors and
the reloaded object's `modified` field (when the model has one) equals
the advanced time; `test_changeform_create` creates under the advanced
clock: the view redirects without errors, the object count grows by
exactly one, and the newly created (last) object's `created` field (when
the model has one) equals the advanced time. -/
theorem C3_timestamps (p : Perms) (tr : ModelTraits) (now0 : Nat)
    (db : SimDb) (pk : Nat) (nm : String)
    (hchange : p.change = true) (hadd : p.add = true) :
    ((adminSavePost p tr (now0 + 1) db pk nm).2.status_code = 302
      ∧ (adminSavePost p tr (now0 + 1) db pk nm).2.errors = []
      ∧ (tr.has_modified = true → ∀ o, simReload db pk = some o →
          simReload (adminSavePost p tr (now0 + 1) db pk nm).1 pk
            = some { o with name := nm, modified := some (now0 + 1) }))
    ∧ ((adminCreatePost p tr (now0 + 1) db nm).2.status_code = 302
      ∧ (adminCreatePost p tr (now0 + 1) db nm).2.errors = []
      ∧ (adminCreatePost p tr (now0 + 1) db nm).1.rows.length
          = db.rows.length + 1
      ∧ (tr.has_created = true →
          ((adminCreatePost p tr (now0 + 1) db nm).1.rows.getLast?).map
              SimObj.created = some (some (now0 + 1)))) := by
  refine ⟨⟨?_, ?_, ?_⟩, ?_, ?_, ?_, ?_⟩
  · simp [adminSavePost, hchange]
  · simp [adminSavePost, hchange]
  · intro hm o ho
    have hfind := find?_after_update pk
      (fun o => { o with
        name := nm
        modified := if tr.has_modified then some (now0 + 1) else o.modified })
      (fun o => rfl) db.rows o ho
    rw [hm] at hfind
    simp only [if_pos rfl] at hfind
    simp only [adminSavePost, hchange, simReload, Bool.not_true,
      Bool.false_eq_true, if_false, hm]
    exact hfind
  · simp [adminCreatePost, hadd]
  · simp [adminCreatePost, hadd]
  · simp [adminCreatePost, hadd]
  · intro hc
    simp [adminCreatePost, hadd, hc]

/-- C4: a read-only admin (add, change and delete all denied) answers
each of the four flows with 403 — GET of the add view, POST of the
transformed data to the add view, POST of the reconstructed data to the
change view, POST of `{'post': 'yes'}` to the delete view — leaving the
table unchanged; a full-functional admin's save, create and delete flows
redirect with 302 and an empty error set (and deletion removes the
object's row). -/
theorem C4_admin_permissions (p : Perms) (tr : ModelTraits) (now : Nat)
    (db : SimDb) (pk : Nat) (nm : String) :
    (p.add = false → (adminAddGet p).status_code = 403
      ∧ (adminCreatePost p tr now db nm).2.status_code = 403
      ∧ (adminCreatePost p tr now db nm).1 = db)
    ∧ (p.change = false →
        (adminSavePost p tr now db pk nm).2.status_code = 403
        ∧ (adminSavePost p tr now db pk nm).1 = db)
    ∧ (p.delete = false → (adminDeletePost p db pk).2.status_code = 403
        ∧ (adminDeletePost p db pk).1 = db)
    ∧ (p.add = true → (adminCreatePost p tr now db nm).2.status_code = 302
        ∧ (adminCreatePost p tr now db nm).2.errors = [])
    ∧ (p.change = true →
        (adminSavePost p tr now db pk nm).2.status_code = 302
        ∧ (adminSavePost p tr now db pk nm).2.errors = [])
    ∧ (p.delete = true → (adminDeletePost p db pk).2.status_code = 302
        ∧ (adminDeletePost p db pk).2.errors = []
        ∧ ∀ o ∈ (adminDeletePost p db pk).1.rows, o.pk ≠ pk) := by
  refine ⟨?_, ?_, ?_, ?_, ?_, ?_⟩ <;> intro h <;>
    simp [adminAddGet, adminCreatePost, adminSavePost, adminDeletePost, h]

/-- Full permissions, timestamp model, and a one-row table, matching the
test project's fixture (pk 123). -/
def c3Perms : Perms := { add := true, change := true, delete := true }

def c3Traits : ModelTraits := { has_created := true, has_modified := true }

def c3Db : SimDb :=
  { rows := [{ pk := 123
               name := "project"
               created := some 10
               modified := some 10 }]
    nextPk := 124 }

/-- Witness for C3: saving at frozen time 50+1 stamps `modified = 51` on
the reloaded object; creating at 51 appends exactly one object with
`created = 51`. -/
theorem C3_witness :
    c3Perms.change = true
    ∧ (adminSavePost c3Perms c3Traits 51 c3Db 123 "project").2.status_code
        = 302
    ∧ simReload (adminSavePost c3Perms c3Traits 51 c3Db 123 "project").1 123
        = some { pk := 123
                 name := "project"
                 created := some 10
                 modified := some 51 }
    ∧ (adminCreatePost c3Perms c3Traits 51 c3Db "new").1.rows.length = 2
    ∧ ((adminCreatePost c3Perms c3Traits 51 c3Db "new").1.rows.getLast?).map
        SimObj.created = some (some 51) := by
  have h := C3_timestamps c3Perms c3Traits 50 c3Db 123 "project" rfl rfl
  have h2 := C3_timestamps c3Perms c3Traits 50 c3Db 123 "new" rfl rfl
  refine ⟨rfl, h.1.1, ?_, ?_, h2.2.2.2.2 rfl⟩
  · exact h.1.2.2 rfl
      { pk := 123, name := "project", created := some 10, modified := some 10 }
      rfl
  · exact h2.2.2.2.1

def c4ReadOnly : Perms := { add := false, change := false, delete := false }

/-- Witness for C4: the four flows of the read-only admin each answer
403 without touching the table, and the full-functional admin's save,
create and delete flows redirect with 302 and no errors. -/
theorem C4_witness :
    (adminAddGet c4ReadOnly).status_code = 403
    ∧ (adminCreatePost c4ReadOnly c3Traits 51 c3Db "new").2.status_code = 403
    ∧ (adminSavePost c4ReadOnly c3Traits 51 c3Db 123 "x").2.status_code = 403
    ∧ (adminDeletePost c4ReadOnly c3Db 123).2.status_code = 403
    ∧ (adminDeletePost c4ReadOnly c3Db 123).1 = c3Db
    ∧ (adminSavePost c3Perms c3Traits 51 c3Db 123 "x").2.status_code = 302
    ∧ (adminCreatePost c3Perms c3Traits 51 c3Db "new").2.errors = []
    ∧ (adminDeletePost c3Perms c3Db 123).2.status_code = 302 := by
  have hro := C4_admin_permissions c4ReadOnly c3Traits 51 c3Db 123 "x"
  have hro2 := C4_admin_permissions c4ReadOnly c3Traits 51 c3Db 123 "new"
  have hfull := C4_admin_permissions c3Perms c3Traits 51 c3Db 123 "x"
  have hfull2 := C4_admin_permissions c3Perms c3Traits 51 c3Db 123 "new"
  exact ⟨(hro.1 rfl).1, (hro2.1 rfl).2.1, (hro.2.1 rfl).1,
    (hro.2.2.1 rfl).1, (hro.2.2.1 rfl).2,
    (hfull.2.2.2.2.1 rfl).1, (hfull2.2.2.2.1 rfl).2,
    (hfull.2.2.2.2.2 rfl).1⟩

end AdminSmoke
